import Mathlib

/-!
Verification of the LiveBid auction server core
(`packages/server/src/store/auctionStore.js` and
`packages/server/src/socket/bidHandler.js`), shallowly embedded in Lean.

Amounts are modelled as JavaScript numbers restricted to the values the
program actually manipulates: either a rational number or `NaN`.  The JS
comparison `a <= b` is false whenever either side is `NaN`, and `NaN` is
falsy; both facts are semantically relevant to the bid-validation code.
Wall-clock readings (`Date.now()`) are natural numbers of milliseconds and
are passed explicitly, as are the fresh uuids for bid records.
-/

/-- A JavaScript number as the auction code uses it: a real numeric value
(modelled as a rational) or `NaN`. -/
inductive JsNum where
  | num (q : ℚ)
  | nan
deriving DecidableEq, Repr

/-- JavaScript `a <= b` on numbers: false when either operand is `NaN`. -/
def JsNum.jsLe : JsNum → JsNum → Bool
  | .num a, .num b => a ≤ b
  | _, _ => false

/-- JavaScript truthiness of a number: `0` and `NaN` are falsy. -/
def JsNum.truthy : JsNum → Bool
  | .num a => a ≠ 0
  | .nan => false

/-- A record pushed onto `item.bidHistory` by `placeBid`:
`{ id: uuidv4(), bidderId, amount, timestamp }`. -/
structure Bid where
  id : String
  bidderId : Option String
  amount : JsNum
  timestamp : ℕ
deriving DecidableEq, Repr

/-- An element of the `auctionItems` array in `auctionStore.js`. -/
structure AuctionItem where
  id : String
  title : String
  description : String
  imageUrl : String
  startingPrice : JsNum
  currentBid : JsNum
  highestBidderId : Option String
  auctionEndTime : ℕ
  bidHistory : List Bid
deriving DecidableEq, Repr

/-- `createSampleItems()` from `auctionStore.js`: the six seeded items,
with `auctionEndTime` offsets of 5, 8, 3, 10, 6 and 4 minutes from the
clock reading `now`. -/
def createSampleItems (now : ℕ) : List AuctionItem :=
  [ { id := "item-001", title := "Vintage Mechanical Keyboard",
      description := "Cherry MX Blue switches, retro design",
      imageUrl := "/images/keyboard.jpg",
      startingPrice := .num 50, currentBid := .num 50,
      highestBidderId := none, auctionEndTime := now + 5 * 60 * 1000,
      bidHistory := [] },
    { id := "item-002", title := "Limited Edition Sneakers",
      description := "Size 10, never worn, original box",
      imageUrl := "/images/sneakers.jpg",
      startingPrice := .num 120, currentBid := .num 120,
      highestBidderId := none, auctionEndTime := now + 8 * 60 * 1000,
      bidHistory := [] },
    { id := "item-003", title := "Signed Guitar Pick Collection",
      description := "From various rock legends",
      imageUrl := "/images/guitar-picks.jpg",
      startingPrice := .num 200, currentBid := .num 200,
      highestBidderId := none, auctionEndTime := now + 3 * 60 * 1000,
      bidHistory := [] },
    { id := "item-004", title := "Rare Pokemon Card - Charizard",
      description := "First edition, mint condition",
      imageUrl := "/images/pokemon.jpg",
      startingPrice := .num 500, currentBid := .num 500,
      highestBidderId := none, auctionEndTime := now + 10 * 60 * 1000,
      bidHistory := [] },
    { id := "item-005", title := "Antique Pocket Watch",
      description := "1920s Swiss movement, gold plated",
      imageUrl := "/images/watch.jpg",
      startingPrice := .num 300, currentBid := .num 300,
      highestBidderId := none, auctionEndTime := now + 6 * 60 * 1000,
      bidHistory := [] },
    { id := "item-006", title := "Gaming Console Bundle",
      description := "Latest gen with 5 games included",
      imageUrl := "/images/console.jpg",
      startingPrice := .num 400, currentBid := .num 400,
      highestBidderId := none, auctionEndTime := now + 4 * 60 * 1000,
      bidHistory := [] } ]

/-- The module-level mutable state of `auctionStore.js`: the
`auctionItems` array and the key set of the `itemLocks` mutex map
(insertion order preserved). -/
structure AuctionStore where
  auctionItems : List AuctionItem
  itemLocks : List String
deriving DecidableEq, Repr

/-- The state at module load: `let auctionItems = createSampleItems()`,
empty lock map. -/
def initStore (now : ℕ) : AuctionStore :=
  { auctionItems := createSampleItems now, itemLocks := [] }

/-- State effect of `getLockForItem(itemId)`: insert `itemId` into the
mutex map if not already present. -/
def getLockForItem (itemId : String) (s : AuctionStore) : AuctionStore :=
  if itemId ∈ s.itemLocks then s
  else { s with itemLocks := s.itemLocks ++ [itemId] }

/-- The public view produced by `getAllItems()`: every item field except
`bidHistory`. -/
structure PublicItemView where
  id : String
  title : String
  description : String
  imageUrl : String
  startingPrice : JsNum
  currentBid : JsNum
  highestBidderId : Option String
  auctionEndTime : ℕ
deriving DecidableEq, Repr

/-- `getAllItems()` from `auctionStore.js`: maps each stored item to a
clean copy without `bidHistory`. -/
def getAllItems (s : AuctionStore) : List PublicItemView :=
  s.auctionItems.map fun item =>
    { id := item.id, title := item.title, description := item.description,
      imageUrl := item.imageUrl, startingPrice := item.startingPrice,
      currentBid := item.currentBid, highestBidderId := item.highestBidderId,
      auctionEndTime := item.auctionEndTime }

/-- `getItemById(itemId)` from `auctionStore.js`:
`auctionItems.find(item => item.id === itemId)` — note that it returns the
stored item itself, `bidHistory` included. -/
def getItemById (s : AuctionStore) (itemId : String) : Option AuctionItem :=
  s.auctionItems.find? fun item => item.id == itemId

/-- The `item` sub-object of a successful `placeBid` result:
`{ id, title, currentBid, highestBidderId, auctionEndTime }`. -/
structure AcceptedItemView where
  id : String
  title : String
  currentBid : JsNum
  highestBidderId : Option String
  auctionEndTime : ℕ
deriving DecidableEq, Repr

/-- The result of `placeBid`, keyed by its `success`/`error` fields.
`bidTooLow` carries the `currentBid` field of the failure result;
`accepted` carries the result's `item` view and `previousBidderId`. -/
inductive BidOutcome where
  | itemNotFound
  | auctionEnded
  | bidTooLow (currentBid : JsNum)
  | accepted (item : AcceptedItemView) (previousBidderId : Option String)
deriving DecidableEq, Repr

/-- Replace the first element satisfying `p` by its image under `f`,
leaving the rest of the list unchanged — the effect of mutating the
element returned by `Array.prototype.find` in place. -/
def updateFirst (p : α → Bool) (f : α → α) : List α → List α
  | [] => []
  | x :: xs => if p x then f x :: xs else x :: updateFirst p f xs

/-- The accepted-bid mutation of `placeBid`: set `currentBid` and
`highestBidderId`, push the new bid record. -/
def applyBid (bidderId : Option String) (bidAmount : JsNum)
    (serverTime : ℕ) (freshId : String) (item : AuctionItem) : AuctionItem :=
  { item with
    currentBid := bidAmount,
    highestBidderId := bidderId,
    bidHistory := item.bidHistory ++
      [{ id := freshId, bidderId := bidderId, amount := bidAmount,
         timestamp := serverTime }] }

/-- `placeBid(itemId, bidderId, bidAmount)` from `auctionStore.js`.
`serverTime` is the `Date.now()` reading taken inside the critical
section and `freshId` the generated uuid.  The lock map entry is created
by `getLockForItem` before the item lookup; the checks then run in source
order: item lookup, deadline, amount. -/
def placeBid (itemId : String) (bidderId : Option String) (bidAmount : JsNum)
    (serverTime : ℕ) (freshId : String) (s : AuctionStore) :
    BidOutcome × AuctionStore :=
  let s₁ := getLockForItem itemId s
  match s₁.auctionItems.find? (fun i => i.id == itemId) with
  | none => (.itemNotFound, s₁)
  | some item =>
    if item.auctionEndTime ≤ serverTime then
      (.auctionEnded, s₁)
    else if bidAmount.jsLe item.currentBid then
      (.bidTooLow item.currentBid, s₁)
    else
      let previousBidderId := item.highestBidderId
      let newItem := applyBid bidderId bidAmount serverTime freshId item
      (.accepted
        { id := newItem.id, title := newItem.title,
          currentBid := newItem.currentBid,
          highestBidderId := newItem.highestBidderId,
          auctionEndTime := newItem.auctionEndTime }
        previousBidderId,
       { s₁ with auctionItems :=
          (updateFirst (fun i => i.id == itemId)
            (applyBid bidderId bidAmount serverTime freshId)
            s₁.auctionItems) })

/-- `resetItems()` from `auctionStore.js`: reseed the item array and clear
the mutex map. -/
def resetItems (now : ℕ) (_s : AuctionStore) : AuctionStore :=
  { auctionItems := createSampleItems now, itemLocks := [] }

/-!
The socket layer (`bidHandler.js`): validation of `BID_PLACED` payloads
and the event fanout after a successful bid.
-/

/-- The destructured fields of a `BID_PLACED` payload; `none` stands for
a missing (or `null`) field. -/
structure BidRequest where
  itemId : Option String
  bidAmount : Option JsNum
  bidderId : Option String
deriving DecidableEq, Repr

/-- JavaScript falsiness of a possibly missing string field: missing,
`null` and the empty string are falsy. -/
def jsFalsyStr : Option String → Bool
  | none => true
  | some s => s == ""

/-- JavaScript falsiness of a possibly missing number field: missing,
`null`, `0` and `NaN` are falsy. -/
def jsFalsyNum : Option JsNum → Bool
  | none => true
  | some n => !n.truthy

/-- The `UPDATE_BID` payload emitted after every accepted bid. -/
structure UpdateBidEvent where
  itemId : String
  currentBid : JsNum
  highestBidderId : Option String
  previousBidderId : Option String
  serverTime : ℕ
deriving DecidableEq, Repr

/-- The `OUTBID` payload emitted when a previous leader is displaced. -/
structure OutbidEvent where
  itemId : String
  outbidUserId : Option String
  newBid : JsNum
  newBidderId : Option String
deriving DecidableEq, Repr

/-- The acknowledgement sent through the `BID_PLACED` callback. -/
inductive BidResponse where
  | invalidData
  | ok (item : AcceptedItemView)
  | err (e : BidOutcome)
deriving DecidableEq, Repr

/-- The events emitted by the success branch of the `BID_PLACED` handler:
one `UPDATE_BID` built from `result.item` and `result.previousBidderId`
with a fresh `getServerTime()` reading, and an `OUTBID` exactly when
`result.previousBidderId && result.previousBidderId !== bidderId`
(JS truthiness: a `null` or empty previous bidder emits nothing). -/
def fanoutEvents (result : BidOutcome) (bidderId : Option String)
    (fanoutTime : ℕ) : List UpdateBidEvent × List OutbidEvent :=
  match result with
  | .accepted item prev =>
      ([{ itemId := item.id, currentBid := item.currentBid,
          highestBidderId := item.highestBidderId,
          previousBidderId := prev, serverTime := fanoutTime }],
       if !jsFalsyStr prev && prev ≠ bidderId then
         [{ itemId := item.id, outbidUserId := prev,
            newBid := item.currentBid,
            newBidderId := item.highestBidderId }]
       else [])
  | _ => ([], [])

/-- The `BID_PLACED` handler of `bidHandler.js`: reject payloads with a
falsy `itemId`, `bidAmount` or `bidderId` as `INVALID_DATA` without
touching the store, otherwise delegate to `placeBid` and, on success,
fan out the events. -/
def handleBidPlaced (req : BidRequest) (serverTime : ℕ) (freshId : String)
    (fanoutTime : ℕ) (s : AuctionStore) :
    BidResponse × (List UpdateBidEvent × List OutbidEvent) × AuctionStore :=
  if jsFalsyStr req.itemId || jsFalsyNum req.bidAmount || jsFalsyStr req.bidderId then
    (.invalidData, ([], []), s)
  else
    let itemId := req.itemId.getD ""
    let bidderId := req.bidderId
    let bidAmount := req.bidAmount.getD .nan
    let (result, s') := placeBid itemId bidderId bidAmount serverTime freshId s
    match result with
    | .accepted item prev =>
        (.ok item, fanoutEvents (.accepted item prev) bidderId fanoutTime, s')
    | other => (.err other, ([], []), s')

/-!
Auxiliary definitions for the correctness statements.
-/

/-- The spec's public view of an item: every stored field except
`bidHistory`.  Used to state that `getAllItems` is exactly this
projection. -/
def PublicItemView.ofItem (i : AuctionItem) : PublicItemView :=
  { id := i.id, title := i.title, description := i.description,
    imageUrl := i.imageUrl, startingPrice := i.startingPrice,
    currentBid := i.currentBid, highestBidderId := i.highestBidderId,
    auctionEndTime := i.auctionEndTime }

/-- Stores reachable from the seeded state by resets and by `placeBid`
calls whose amount is an actual number and whose bidder is non-null —
the well-formed call sequences of the amended claim C3. -/
inductive GoodReach : AuctionStore → Prop where
  | init (now : ℕ) : GoodReach (initStore now)
  | reset (now : ℕ) (s : AuctionStore) : GoodReach s → GoodReach (resetItems now s)
  | bid (itemId : String) (bidder : String) (amount : ℚ) (t : ℕ) (fid : String)
      (s : AuctionStore) : GoodReach s →
      GoodReach (placeBid itemId (some bidder) (.num amount) t fid s).2

/-- The per-item state invariant maintained by well-formed call
sequences: prices are numeric, and the bid history is empty exactly in
the pristine state (`currentBid = startingPrice`, no leader), while a
non-empty history forces `startingPrice < currentBid` and a leader. -/
def itemInv (i : AuctionItem) : Prop :=
  ∃ p c : ℚ, i.startingPrice = .num p ∧ i.currentBid = .num c ∧
    (i.bidHistory = [] → c = p ∧ i.highestBidderId = none) ∧
    (i.bidHistory ≠ [] → p < c ∧ i.highestBidderId ≠ none)

/-!
Helper lemmas.
-/

/-- `getLockForItem` only touches the lock map, never the items. -/
theorem getLockForItem_auctionItems (itemId : String) (s : AuctionStore) :
    (getLockForItem itemId s).auctionItems = s.auctionItems := by
  unfold getLockForItem
  split <;> rfl

/-- The requested id is in the lock map after `getLockForItem`. -/
theorem mem_getLockForItem (itemId : String) (s : AuctionStore) :
    itemId ∈ (getLockForItem itemId s).itemLocks := by
  unfold getLockForItem
  split
  · assumption
  · simp

/-- `getLockForItem` never drops lock-map entries. -/
theorem getLockForItem_mono (itemId k : String) (s : AuctionStore)
    (hk : k ∈ s.itemLocks) : k ∈ (getLockForItem itemId s).itemLocks := by
  unfold getLockForItem
  split
  · exact hk
  · simp [hk]

/-- `updateFirst` preserves the length of the list. -/
theorem updateFirst_length (p : α → Bool) (f : α → α) (l : List α) :
    (updateFirst p f l).length = l.length := by
  induction l with
  | nil => rfl
  | cons x xs ih =>
    simp only [updateFirst]
    split <;> simp [ih]

/-- An element of `updateFirst p f l` is an element of `l` or the image
under `f` of the first element of `l` satisfying `p`. -/
theorem mem_updateFirst (p : α → Bool) (f : α → α) (l : List α) (a : α)
    (ha : a ∈ updateFirst p f l) :
    a ∈ l ∨ ∃ b, l.find? p = some b ∧ a = f b := by
  induction l with
  | nil => cases ha
  | cons x xs ih =>
    by_cases hx : p x = true
    · rw [updateFirst, if_pos hx] at ha
      rcases List.mem_cons.mp ha with rfl | ha
      · exact Or.inr ⟨x, List.find?_cons_of_pos _ hx, rfl⟩
      · exact Or.inl (List.mem_cons_of_mem _ ha)
    · rw [updateFirst, if_neg hx] at ha
      rcases List.mem_cons.mp ha with rfl | ha
      · exact Or.inl (List.mem_cons_self _ _)
      · rcases ih ha with h | ⟨b, hfb, rfl⟩
        · exact Or.inl (List.mem_cons_of_mem _ h)
        · exact Or.inr ⟨b, by rw [List.find?_cons_of_neg _ hx]; exact hfb, rfl⟩

/-- Positionally, `updateFirst` leaves elements unchanged except at the
position of the first `p`-satisfying element (the `find?` witness),
which it maps through `f`. -/
theorem updateFirst_getElem? (p : α → Bool) (f : α → α) (l : List α) (a : α)
    (hfind : l.find? p = some a) (n : ℕ) :
    (updateFirst p f l)[n]? = l[n]? ∨
      ((updateFirst p f l)[n]? = some (f a) ∧ l[n]? = some a) := by
  induction l generalizing n with
  | nil => left; rfl
  | cons x xs ih =>
    by_cases hx : p x = true
    · have ha : x = a := by
        rw [List.find?_cons_of_pos _ hx] at hfind
        exact Option.some.inj hfind
      cases n with
      | zero =>
        right
        rw [updateFirst, if_pos hx]
        simp [ha]
      | succ m =>
        left
        rw [updateFirst, if_pos hx]
        simp
    · have hfind' : xs.find? p = some a := by
        rwa [List.find?_cons_of_neg _ hx] at hfind
      cases n with
      | zero =>
        left
        rw [updateFirst, if_neg hx]
        simp
      | succ m =>
        rw [updateFirst, if_neg hx]
        simpa using ih hfind' m

/-- First matches survive `updateFirst` when `f` preserves `p`:
the first `p`-match of the updated list is `f` of the original one. -/
theorem find?_updateFirst (p : α → Bool) (f : α → α) (l : List α)
    (hf : ∀ x, p (f x) = p x) :
    (updateFirst p f l).find? p = (l.find? p).map f := by
  induction l with
  | nil => rfl
  | cons x xs ih =>
    by_cases hx : p x = true
    · rw [updateFirst, if_pos hx, List.find?_cons_of_pos _ ((hf x).trans hx),
        List.find?_cons_of_pos _ hx, Option.map_some']
    · rw [updateFirst, if_neg hx, List.find?_cons_of_neg _ hx,
        List.find?_cons_of_neg _ hx, ih]

/-- Case analysis on the state `placeBid` leaves behind: every rejection
path keeps the item array intact, and the accepted path rewrites exactly
the first item matching the id through `applyBid`, under the deadline
and amount guards. -/
theorem placeBid_auctionItems_cases (itemId : String) (bidderId : Option String)
    (bidAmount : JsNum) (serverTime : ℕ) (freshId : String) (s : AuctionStore) :
    (placeBid itemId bidderId bidAmount serverTime freshId s).2.auctionItems =
      s.auctionItems ∨
    (∃ item, s.auctionItems.find? (fun i => i.id == itemId) = some item ∧
      serverTime < item.auctionEndTime ∧
      bidAmount.jsLe item.currentBid = false ∧
      (placeBid itemId bidderId bidAmount serverTime freshId s).2.auctionItems =
        updateFirst (fun i => i.id == itemId)
          (applyBid bidderId bidAmount serverTime freshId) s.auctionItems) := by
  simp only [placeBid, getLockForItem_auctionItems]
  cases hfind : s.auctionItems.find? (fun i => i.id == itemId) with
  | none => left; exact getLockForItem_auctionItems itemId s
  | some item =>
    dsimp only
    by_cases hend : item.auctionEndTime ≤ serverTime
    · rw [if_pos hend]
      left; exact getLockForItem_auctionItems itemId s
    · rw [if_neg hend]
      by_cases hle : bidAmount.jsLe item.currentBid = true
      · rw [if_pos hle]
        left; exact getLockForItem_auctionItems itemId s
      · simp only [Bool.not_eq_true] at hle
        rw [if_neg (by simp [hle])]
        right
        exact ⟨item, rfl, Nat.lt_of_not_le hend, hle, rfl⟩

/-- `placeBid` never touches the lock map beyond the `getLockForItem`
get-or-create step. -/
theorem placeBid_itemLocks (itemId : String) (bidderId : Option String)
    (bidAmount : JsNum) (serverTime : ℕ) (freshId : String) (s : AuctionStore) :
    (placeBid itemId bidderId bidAmount serverTime freshId s).2.itemLocks =
      (getLockForItem itemId s).itemLocks := by
  simp only [placeBid]
  cases hfind : (getLockForItem itemId s).auctionItems.find? (fun i => i.id == itemId) with
  | none => rfl
  | some item =>
    dsimp only
    by_cases hend : item.auctionEndTime ≤ serverTime
    · rw [if_pos hend]
    · rw [if_neg hend]
      by_cases hle : bidAmount.jsLe item.currentBid = true
      · rw [if_pos hle]
      · rw [if_neg hle]

/-- A numeric amount that fails the JS `amount <= currentBid` test against
a numeric `currentBid` is strictly larger than it. -/
theorem lt_of_jsLe_num_false (amount c : ℚ)
    (hle : JsNum.jsLe (.num amount) (.num c) = false) : c < amount := by
  simp only [JsNum.jsLe, decide_eq_false_iff_not, not_le] at hle
  exact hle

/-- Every seeded item satisfies the state invariant. -/
theorem itemInv_createSampleItems (now : ℕ) :
    ∀ i ∈ createSampleItems now, itemInv i := by
  intro i hi
  simp only [createSampleItems, List.mem_cons, List.not_mem_nil, or_false] at hi
  rcases hi with rfl | rfl | rfl | rfl | rfl | rfl <;>
    exact ⟨_, _, rfl, rfl, fun _ => ⟨rfl, rfl⟩, fun h => absurd rfl h⟩

/-- Accepting a numeric, guard-passing bid from a named bidder preserves
the state invariant of the item it updates. -/
theorem itemInv_applyBid (bidder : String) (amount : ℚ) (t : ℕ) (fid : String)
    (item : AuctionItem) (hinv : itemInv item)
    (hle : JsNum.jsLe (.num amount) item.currentBid = false) :
    itemInv (applyBid (some bidder) (.num amount) t fid item) := by
  obtain ⟨p, c, hp, hc, hemp, hne⟩ := hinv
  rw [hc] at hle
  have hlt : c < amount := lt_of_jsLe_num_false amount c hle
  refine ⟨p, amount, hp, rfl, ?_, ?_⟩
  · intro h
    exact absurd h (by simp [applyBid])
  · intro _
    refine ⟨?_, by simp [applyBid]⟩
    by_cases hh : item.bidHistory = []
    · have := (hemp hh).1
      linarith
    · have := (hne hh).1
      linarith

/-- A well-formed `placeBid` call preserves the invariant of every item
in the store. -/
theorem itemInv_preserved (itemId : String) (bidder : String) (amount : ℚ)
    (t : ℕ) (fid : String) (s : AuctionStore)
    (hs : ∀ i ∈ s.auctionItems, itemInv i) :
    ∀ i ∈ (placeBid itemId (some bidder) (.num amount) t fid s).2.auctionItems,
      itemInv i := by
  rcases placeBid_auctionItems_cases itemId (some bidder) (.num amount) t fid s with
    heq | ⟨item, hfind, _, hle, heq⟩
  · rw [heq]; exact hs
  · rw [heq]
    intro i hi
    rcases mem_updateFirst _ _ _ _ hi with h | ⟨b, hfb, rfl⟩
    · exact hs i h
    · have hb : b = item := by
        rw [hfind] at hfb
        exact Option.some.inj hfb.symm
      subst hb
      exact itemInv_applyBid bidder amount t fid b
        (hs b (List.mem_of_find?_eq_some hfind)) hle

/-- Every store reachable by well-formed call sequences satisfies the
per-item invariant. -/
theorem goodReach_itemInv {s : AuctionStore} (hs : GoodReach s) :
    ∀ i ∈ s.auctionItems, itemInv i := by
  induction hs with
  | init now => exact itemInv_createSampleItems now
  | reset now s _ _ => exact itemInv_createSampleItems now
  | bid itemId bidder amount t fid s _ ih =>
      exact itemInv_preserved itemId bidder amount t fid s ih

/-!
Claim theorems.
-/

/-- Claim C1: `placeBid` runs its checks in the fixed source order with
short-circuiting — unknown item → `ITEM_NOT_FOUND`; otherwise a
`Date.now()` reading at or past `auctionEndTime` → `AUCTION_ENDED`;
otherwise an amount with `amount <= currentBid` → `BID_TOO_LOW`;
otherwise `ACCEPTED` with `previousBidderId` captured before the update,
`currentBid` set to the amount, `highestBidderId` set to the bidder, and
exactly one new bid record (fresh id, bidder, amount, the timestamp read
for the deadline check) appended to the item's history. -/
theorem C1_placeBid_check_order (itemId : String) (bidderId : Option String)
    (bidAmount : JsNum) (serverTime : ℕ) (freshId : String) (s : AuctionStore) :
    (s.auctionItems.find? (fun i => i.id == itemId) = none →
      (placeBid itemId bidderId bidAmount serverTime freshId s).1 = .itemNotFound) ∧
    (∀ item, s.auctionItems.find? (fun i => i.id == itemId) = some item →
      item.auctionEndTime ≤ serverTime →
      (placeBid itemId bidderId bidAmount serverTime freshId s).1 = .auctionEnded) ∧
    (∀ item, s.auctionItems.find? (fun i => i.id == itemId) = some item →
      serverTime < item.auctionEndTime →
      bidAmount.jsLe item.currentBid = true →
      (placeBid itemId bidderId bidAmount serverTime freshId s).1 =
        .bidTooLow item.currentBid) ∧
    (∀ item, s.auctionItems.find? (fun i => i.id == itemId) = some item →
      serverTime < item.auctionEndTime →
      bidAmount.jsLe item.currentBid = false →
      (placeBid itemId bidderId bidAmount serverTime freshId s).1 =
        .accepted
          { id := item.id, title := item.title, currentBid := bidAmount,
            highestBidderId := bidderId, auctionEndTime := item.auctionEndTime }
          item.highestBidderId ∧
      (placeBid itemId bidderId bidAmount serverTime freshId s).2.auctionItems.find?
          (fun i => i.id == itemId) =
        some ({ item with
                currentBid := bidAmount,
                highestBidderId := bidderId,
                bidHistory := item.bidHistory ++
                  [{ id := freshId, bidderId := bidderId, amount := bidAmount,
                     timestamp := serverTime }] })) := by
  refine ⟨?_, ?_, ?_, ?_⟩
  · intro hf
    simp only [placeBid, getLockForItem_auctionItems]
    rw [hf]
  · intro item hf hend
    simp only [placeBid, getLockForItem_auctionItems]
    rw [hf]
    dsimp only
    rw [if_pos hend]
  · intro item hf hend hle
    simp only [placeBid, getLockForItem_auctionItems]
    rw [hf]
    dsimp only
    rw [if_neg (Nat.not_le_of_lt hend), if_pos hle]
  · intro item hf hend hle
    simp only [placeBid, getLockForItem_auctionItems]
    rw [hf]
    dsimp only
    rw [if_neg (Nat.not_le_of_lt hend), if_neg (by simp [hle])]
    refine ⟨rfl, ?_⟩
    dsimp only
    rw [find?_updateFirst (fun i => i.id == itemId)
      (applyBid bidderId bidAmount serverTime freshId) s.auctionItems
      (fun x => rfl), hf]
    rfl

/-- Witness for C1 at a concrete input: bidding 10 on the seeded
`item-001` (current bid 50) before its deadline is rejected as too low. -/
theorem C1_witness :
    (placeBid "item-001" (some "alice") (JsNum.num 10) 1 "b1" (initStore 0)).1 =
      .bidTooLow (JsNum.num 50) := by
  have hfind : (initStore 0).auctionItems.find? (fun i => i.id == "item-001") =
      some { id := "item-001", title := "Vintage Mechanical Keyboard",
             description := "Cherry MX Blue switches, retro design",
             imageUrl := "/images/keyboard.jpg", startingPrice := .num 50,
             currentBid := .num 50, highestBidderId := none,
             auctionEndTime := 300000, bidHistory := [] } := by decide
  exact (C1_placeBid_check_order "item-001" (some "alice") (JsNum.num 10) 1 "b1"
    (initStore 0)).2.2.1 _ hfind (by decide) (by decide)

/-- Claim C2: every rejection path of `placeBid` leaves every auction
item (and hence every bid history) exactly as it was, and a
`BID_TOO_LOW` result carries the rejected item's `currentBid` at
evaluation time. -/
theorem C2_rejection_no_mutation (itemId : String) (bidderId : Option String)
    (bidAmount : JsNum) (serverTime : ℕ) (freshId : String) (s : AuctionStore) :
    ((placeBid itemId bidderId bidAmount serverTime freshId s).1 = .itemNotFound →
      (placeBid itemId bidderId bidAmount serverTime freshId s).2.auctionItems =
        s.auctionItems) ∧
    ((placeBid itemId bidderId bidAmount serverTime freshId s).1 = .auctionEnded →
      (placeBid itemId bidderId bidAmount serverTime freshId s).2.auctionItems =
        s.auctionItems) ∧
    (∀ cb, (placeBid itemId bidderId bidAmount serverTime freshId s).1 = .bidTooLow cb →
      (placeBid itemId bidderId bidAmount serverTime freshId s).2.auctionItems =
        s.auctionItems ∧
      ∃ item, s.auctionItems.find? (fun i => i.id == itemId) = some item ∧
        cb = item.currentBid) := by
  simp only [placeBid, getLockForItem_auctionItems]
  cases hfind : s.auctionItems.find? (fun i => i.id == itemId) with
  | none =>
    exact ⟨fun _ => getLockForItem_auctionItems itemId s,
      fun h => BidOutcome.noConfusion h,
      fun cb h => BidOutcome.noConfusion h⟩
  | some item =>
    dsimp only
    by_cases hend : item.auctionEndTime ≤ serverTime
    · rw [if_pos hend]
      exact ⟨fun h => BidOutcome.noConfusion h,
        fun _ => getLockForItem_auctionItems itemId s,
        fun cb h => BidOutcome.noConfusion h⟩
    · rw [if_neg hend]
      by_cases hle : bidAmount.jsLe item.currentBid = true
      · rw [if_pos hle]
        refine ⟨fun h => BidOutcome.noConfusion h,
          fun h => BidOutcome.noConfusion h,
          fun cb h => ⟨getLockForItem_auctionItems itemId s, item, rfl, ?_⟩⟩
        exact (BidOutcome.bidTooLow.inj h).symm
      · rw [if_neg hle]
        exact ⟨fun h => BidOutcome.noConfusion h,
          fun h => BidOutcome.noConfusion h,
          fun cb h => BidOutcome.noConfusion h⟩

/-- Witness for C2 at a concrete input: the too-low bid of 10 on seeded
`item-001` leaves the item array untouched. -/
theorem C2_witness :
    (placeBid "item-001" (some "alice") (JsNum.num 10) 1 "b1" (initStore 0)).2.auctionItems =
      (initStore 0).auctionItems := by
  exact ((C2_rejection_no_mutation "item-001" (some "alice") (JsNum.num 10) 1 "b1"
    (initStore 0)).2.2 (JsNum.num 50) (by decide)).1

/-- Counterexample to C3 as stated (quantified over all `placeBid`
sequences): a null bidder with amount 60 is accepted on seeded
`item-001`, leaving `highestBidderId` null with `currentBid ≠
startingPrice` and one accepted bid; and a `NaN` amount is accepted
(JS `NaN <= x` is false), after which a bid of 10 is also accepted,
dropping `currentBid` from 50 to 10. -/
theorem C3_counterexample :
    ((placeBid "item-001" none (JsNum.num 60) 1 "b1" (initStore 0)).2.auctionItems.find?
        (fun i => i.id == "item-001")).map
      (fun i => (i.highestBidderId, i.currentBid, i.startingPrice, i.bidHistory.length)) =
      some (none, JsNum.num 60, JsNum.num 50, 1) ∧
    ¬ ((none : Option String) = none ↔ (JsNum.num 60 = JsNum.num 50 ∧ (1 : ℕ) = 0)) ∧
    ((placeBid "item-001" (some "bob") (JsNum.num 10) 2 "b3"
        (placeBid "item-001" (some "alice") JsNum.nan 1 "b2" (initStore 0)).2).2.auctionItems.find?
        (fun i => i.id == "item-001")).map (fun i => i.currentBid) =
      some (JsNum.num 10) := by
  refine ⟨by decide, by decide, by decide⟩

/-- Claim C3 (amended): over sequences of `placeBid` calls with numeric
amounts and non-null bidder ids, starting from the seeded or reset
state: `currentBid` stays numeric and never decreases and equals
`startingPrice` while `bidHistory` is empty; `highestBidderId` is null
iff `currentBid = startingPrice` and no bid has been accepted; and each
further such call changes an item's `(currentBid, highestBidderId)` pair
iff it appends exactly one bid record, extending (never reordering or
truncating) the history. -/
theorem C3_invariants (s : AuctionStore) (hs : GoodReach s) :
    (∀ i ∈ s.auctionItems,
      (i.highestBidderId = none ↔ (i.currentBid = i.startingPrice ∧ i.bidHistory = []))) ∧
    (∀ i ∈ s.auctionItems, i.bidHistory = [] → i.currentBid = i.startingPrice) ∧
    (∀ (itemId bidder : String) (amount : ℚ) (t : ℕ) (fid : String) (n : ℕ)
        (i i' : AuctionItem),
      s.auctionItems[n]? = some i →
      (placeBid itemId (some bidder) (.num amount) t fid s).2.auctionItems[n]? = some i' →
      (∃ c c' : ℚ, i.currentBid = .num c ∧ i'.currentBid = .num c' ∧ c ≤ c') ∧
      (∃ tail, i'.bidHistory = i.bidHistory ++ tail) ∧
      ((i'.currentBid, i'.highestBidderId) = (i.currentBid, i.highestBidderId) →
        i'.bidHistory = i.bidHistory) ∧
      ((i'.currentBid, i'.highestBidderId) ≠ (i.currentBid, i.highestBidderId) →
        i'.bidHistory.length = i.bidHistory.length + 1)) := by
  have hinv := goodReach_itemInv hs
  refine ⟨?_, ?_, ?_⟩
  · intro i hi
    obtain ⟨p, c, hp, hc, hemp, hne⟩ := hinv i hi
    constructor
    · intro h0
      by_cases hh : i.bidHistory = []
      · refine ⟨?_, hh⟩
        rw [hc, hp, (hemp hh).1]
      · exact absurd h0 (hne hh).2
    · rintro ⟨_, hh⟩
      exact (hemp hh).2
  · intro i hi hh
    obtain ⟨p, c, hp, hc, hemp, _⟩ := hinv i hi
    rw [hc, hp, (hemp hh).1]
  · intro itemId bidder amount t fid n i i' hgi hgi'
    have hsame : ∀ (h : (placeBid itemId (some bidder) (.num amount) t fid
        s).2.auctionItems[n]? = s.auctionItems[n]?),
        (∃ c c' : ℚ, i.currentBid = .num c ∧ i'.currentBid = .num c' ∧ c ≤ c') ∧
        (∃ tail, i'.bidHistory = i.bidHistory ++ tail) ∧
        ((i'.currentBid, i'.highestBidderId) = (i.currentBid, i.highestBidderId) →
          i'.bidHistory = i.bidHistory) ∧
        ((i'.currentBid, i'.highestBidderId) ≠ (i.currentBid, i.highestBidderId) →
          i'.bidHistory.length = i.bidHistory.length + 1) := by
      intro h
      rw [h, hgi] at hgi'
      obtain rfl : i = i' := Option.some.inj hgi'
      obtain ⟨p, c, hp, hc, hemp, hne⟩ := hinv i (List.getElem?_mem hgi)
      exact ⟨⟨c, c, hc, hc, le_refl c⟩, ⟨[], (List.append_nil _).symm⟩,
        fun _ => rfl, fun hne' => absurd rfl hne'⟩
    rcases placeBid_auctionItems_cases itemId (some bidder) (.num amount) t fid s with
      heq | ⟨item, hfind, _, hle, heq⟩
    · exact hsame (by rw [heq])
    · rcases updateFirst_getElem? (fun i => i.id == itemId)
        (applyBid (some bidder) (.num amount) t fid) s.auctionItems item hfind n with
        hcase | ⟨h1, h2⟩
      · exact hsame (by rw [heq, hcase])
      · rw [heq, h1] at hgi'
        rw [hgi] at h2
        obtain rfl : i = item := Option.some.inj h2
        obtain rfl : i' = applyBid (some bidder) (.num amount) t fid i :=
          (Option.some.inj hgi').symm
        obtain ⟨p, c, hp, hc, hemp, hne⟩ := hinv i (List.getElem?_mem hgi)
        rw [hc] at hle
        have hlt : c < amount := lt_of_jsLe_num_false amount c hle
        refine ⟨⟨c, amount, hc, rfl, le_of_lt hlt⟩, ⟨_, rfl⟩, ?_, ?_⟩
        · intro hpair
          have h3 : JsNum.num amount = i.currentBid := congrArg Prod.fst hpair
          rw [hc] at h3
          have : amount = c := JsNum.num.inj h3
          exact absurd this (ne_of_gt hlt)
        · intro _
          simp [applyBid]

/-- Witness for C3 at the concrete seeded store. -/
theorem C3_witness :
    (∀ i ∈ (initStore 0).auctionItems,
      (i.highestBidderId = none ↔ (i.currentBid = i.startingPrice ∧ i.bidHistory = []))) ∧
    (∀ i ∈ (initStore 0).auctionItems, i.bidHistory = [] → i.currentBid = i.startingPrice) ∧
    (∀ (itemId bidder : String) (amount : ℚ) (t : ℕ) (fid : String) (n : ℕ)
        (i i' : AuctionItem),
      (initStore 0).auctionItems[n]? = some i →
      (placeBid itemId (some bidder) (.num amount) t fid (initStore 0)).2.auctionItems[n]? =
        some i' →
      (∃ c c' : ℚ, i.currentBid = .num c ∧ i'.currentBid = .num c' ∧ c ≤ c') ∧
      (∃ tail, i'.bidHistory = i.bidHistory ++ tail) ∧
      ((i'.currentBid, i'.highestBidderId) = (i.currentBid, i.highestBidderId) →
        i'.bidHistory = i.bidHistory) ∧
      ((i'.currentBid, i'.highestBidderId) ≠ (i.currentBid, i.highestBidderId) →
        i'.bidHistory.length = i.bidHistory.length + 1)) :=
  C3_invariants (initStore 0) (GoodReach.init 0)

/-- Claim C5, code evaluated at the failing input: with seeded
`item-001` live (deadline 300000, clock reading 1), a `NaN` bid amount is
ACCEPTED — JS `NaN <= currentBid` is false, so the guard falls through —
and `currentBid` becomes `NaN`, contradicting the required defensive
rejection of non-numeric amounts. -/
theorem C5_nan_bid_accepted :
    (1 : ℕ) < 300000 ∧
    (placeBid "item-001" (some "alice") JsNum.nan 1 "b1" (initStore 0)).1 =
      .accepted ⟨"item-001", "Vintage Mechanical Keyboard", JsNum.nan, some "alice", 300000⟩
        none ∧
    ((placeBid "item-001" (some "alice") JsNum.nan 1 "b1" (initStore 0)).2.auctionItems.find?
        (fun i => i.id == "item-001")).map (fun i => i.currentBid) = some JsNum.nan := by
  refine ⟨by decide, by decide, by decide⟩

/-- Counterexample to C6: after one accepted bid, `getItemById` returns
the stored record whose `bidHistory` is the non-empty history — the
single-item view does not strip `bidHistory`. -/
theorem C6_counterexample :
    ((getItemById (placeBid "item-001" (some "alice") (JsNum.num 60) 1 "b1" (initStore 0)).2
        "item-001").map (fun i => i.bidHistory)) =
      some [{ id := "b1", bidderId := some "alice", amount := JsNum.num 60, timestamp := 1 }] := by
  decide

/-- Claim C6 (amended): `getAllItems` returns exactly the public-view
shape — the stored items projected through `PublicItemView.ofItem`,
which drops `bidHistory` — while `getItemById` returns the stored item
record itself (history included), not a public view. -/
theorem C6_views (s : AuctionStore) (itemId : String) (item : AuctionItem)
    (h : getItemById s itemId = some item) :
    getAllItems s = s.auctionItems.map PublicItemView.ofItem ∧
    item ∈ s.auctionItems ∧ (item.id == itemId) = true :=
  ⟨rfl,
   List.mem_of_find?_eq_some
     (show s.auctionItems.find? (fun i => i.id == itemId) = some item from h),
   by
     have h2 : s.auctionItems.find? (fun i => i.id == itemId) = some item := h
     have h3 := List.find?_some h2
     simpa using h3⟩

/-- Witness for C6 (amended) at the seeded store and `item-001`. -/
theorem C6_witness :
    getAllItems (initStore 0) = (initStore 0).auctionItems.map PublicItemView.ofItem := by
  rcases hfind : getItemById (initStore 0) "item-001" with _ | item
  · exact absurd hfind (by decide)
  · exact (C6_views (initStore 0) "item-001" item hfind).1

/-- Claim C7: after `resetItems` at clock reading `now`, every item is
pristine — `currentBid = startingPrice`, no leader, empty history — and
the deadlines are exactly `now` plus the six fixed per-item durations,
all strictly in the future. -/
theorem C7_reset_reseeds (now : ℕ) (s : AuctionStore) (i : AuctionItem)
    (hi : i ∈ (resetItems now s).auctionItems) :
    ((resetItems now s).auctionItems.map fun j => j.auctionEndTime) =
      [now + 300000, now + 480000, now + 180000, now + 600000, now + 360000,
       now + 240000] ∧
    i.currentBid = i.startingPrice ∧ i.highestBidderId = none ∧
    i.bidHistory = [] ∧ now < i.auctionEndTime := by
  constructor
  · simp [resetItems, createSampleItems]
  · simp only [resetItems, createSampleItems, List.mem_cons, List.not_mem_nil,
      or_false] at hi
    rcases hi with rfl | rfl | rfl | rfl | rfl | rfl <;>
      exact ⟨rfl, rfl, rfl, by dsimp only; omega⟩

/-- Witness for C7 at reset time 5 from the seeded store. -/
theorem C7_witness :
    ((resetItems 5 (initStore 0)).auctionItems.map fun j => j.auctionEndTime) =
      [300005, 480005, 180005, 600005, 360005, 240005] := by
  have hi : ({ id := "item-001", title := "Vintage Mechanical Keyboard",
               description := "Cherry MX Blue switches, retro design",
               imageUrl := "/images/keyboard.jpg", startingPrice := .num 50,
               currentBid := .num 50, highestBidderId := none,
               auctionEndTime := 300005, bidHistory := [] } : AuctionItem) ∈
      (resetItems 5 (initStore 0)).auctionItems := by decide
  exact (C7_reset_reseeds 5 (initStore 0) _ hi).1

/-- A successful `placeBid` reports the very bidder it stored:
the accepted item view's `highestBidderId` is the call's `bidderId`. -/
theorem placeBid_accepted_highestBidder (itemId : String) (bidderId : Option String)
    (bidAmount : JsNum) (serverTime : ℕ) (freshId : String) (s : AuctionStore)
    (item : AcceptedItemView) (prev : Option String)
    (h : (placeBid itemId bidderId bidAmount serverTime freshId s).1 =
      .accepted item prev) :
    item.highestBidderId = bidderId := by
  simp only [placeBid] at h
  rcases hfind : (getLockForItem itemId s).auctionItems.find? (fun i => i.id == itemId)
    with _ | it
  · rw [hfind] at h
    exact BidOutcome.noConfusion h
  · rw [hfind] at h
    dsimp only at h
    by_cases hend : it.auctionEndTime ≤ serverTime
    · rw [if_pos hend] at h
      exact BidOutcome.noConfusion h
    · rw [if_neg hend] at h
      by_cases hle : bidAmount.jsLe it.currentBid = true
      · rw [if_pos hle] at h
        exact BidOutcome.noConfusion h
      · rw [if_neg hle] at h
        rw [← (BidOutcome.accepted.inj h).1]
        rfl

/-- Counterexample to C8: an accepted bid on `item-001` by `bob` whose
`previousBidderId` is the empty-string bidder — non-null and different
from the new `highestBidderId` — produces no `OUTBID` event, because
the handler tests JS truthiness (`result.previousBidderId && ...`) and
the empty string is falsy. -/
theorem C8_counterexample :
    (placeBid "item-001" (some "bob") (JsNum.num 70) 2 "b2"
        (placeBid "item-001" (some "") (JsNum.num 60) 1 "b1" (initStore 0)).2).1 =
      .accepted ⟨"item-001", "Vintage Mechanical Keyboard", JsNum.num 70, some "bob", 300000⟩
        (some "") ∧
    (fanoutEvents
        (.accepted ⟨"item-001", "Vintage Mechanical Keyboard", JsNum.num 70, some "bob", 300000⟩
          (some ""))
        (some "bob") 3).2 = [] ∧
    (some "" : Option String) ≠ none ∧ (some "" : Option String) ≠ some "bob" := by
  refine ⟨by decide, by decide, by decide, by decide⟩

/-- Claim C8 (amended): for every accepted `placeBid` outcome, the fanout
is a deterministic function of the outcome — exactly one `UPDATE_BID`
event with the item id, new `currentBid`, new `highestBidderId`,
`previousBidderId` and the fanout-time server clock; and exactly one
`OUTBID` event iff `previousBidderId` is non-null, non-empty, and
differs from the new `highestBidderId`; rejected outcomes produce no
events. -/
theorem C8_fanout (itemId : String) (bidderId : Option String) (bidAmount : JsNum)
    (serverTime : ℕ) (freshId : String) (s : AuctionStore) (fanoutTime : ℕ)
    (item : AcceptedItemView) (prev : Option String)
    (h : (placeBid itemId bidderId bidAmount serverTime freshId s).1 =
      .accepted item prev) :
    (fanoutEvents (.accepted item prev) bidderId fanoutTime).1 =
      [{ itemId := item.id, currentBid := item.currentBid,
         highestBidderId := item.highestBidderId, previousBidderId := prev,
         serverTime := fanoutTime }] ∧
    ((fanoutEvents (.accepted item prev) bidderId fanoutTime).2 =
      if prev ≠ none ∧ prev ≠ some "" ∧ prev ≠ item.highestBidderId then
        [{ itemId := item.id, outbidUserId := prev, newBid := item.currentBid,
           newBidderId := item.highestBidderId }]
      else []) ∧
    (∀ cb, fanoutEvents (.bidTooLow cb) bidderId fanoutTime = ([], [])) ∧
    fanoutEvents .itemNotFound bidderId fanoutTime = ([], []) ∧
    fanoutEvents .auctionEnded bidderId fanoutTime = ([], []) := by
  have hb : item.highestBidderId = bidderId :=
    placeBid_accepted_highestBidder itemId bidderId bidAmount serverTime freshId s
      item prev h
  refine ⟨rfl, ?_, fun cb => rfl, rfl, rfl⟩
  simp only [fanoutEvents, hb]
  rcases prev with _ | pstr
  · simp [jsFalsyStr]
  · by_cases hp : pstr = ""
    · subst hp
      simp [jsFalsyStr]
    · by_cases hq : (some pstr : Option String) = bidderId
      · simp [jsFalsyStr, hp, hq]
      · simp [jsFalsyStr, hp, hq]

/-- Witness for C8 (amended): the first accepted bid on seeded
`item-001` fans out exactly one `UPDATE_BID` with a null
`previousBidderId`. -/
theorem C8_witness :
    (fanoutEvents
        (.accepted ⟨"item-001", "Vintage Mechanical Keyboard", JsNum.num 60, some "alice", 300000⟩
          none)
        (some "alice") 7).1 =
      [{ itemId := "item-001", currentBid := JsNum.num 60,
         highestBidderId := some "alice", previousBidderId := none, serverTime := 7 }] := by
  have h : (placeBid "item-001" (some "alice") (JsNum.num 60) 1 "b1" (initStore 0)).1 =
      .accepted ⟨"item-001", "Vintage Mechanical Keyboard", JsNum.num 60, some "alice", 300000⟩
        none := by decide
  exact (C8_fanout "item-001" (some "alice") (JsNum.num 60) 1 "b1" (initStore 0) 7 _ _ h).1

/-- Counterexample to C9's permanence: `placeBid` on the unknown id
`ghost` is rejected as `ITEM_NOT_FOUND` yet creates the gate entry, but
`resetItems` clears the lock map (`itemLocks.clear()`), so the entry is
not permanent. -/
theorem C9_counterexample :
    (placeBid "ghost" (some "g") (JsNum.num 5) 1 "b1" (initStore 0)).1 = .itemNotFound ∧
    (placeBid "ghost" (some "g") (JsNum.num 5) 1 "b1" (initStore 0)).2.itemLocks = ["ghost"] ∧
    (resetItems 100 (placeBid "ghost" (some "g") (JsNum.num 5) 1 "b1"
        (initStore 0)).2).itemLocks = [] := by
  refine ⟨by decide, by decide, by decide⟩

/-- Claim C9 (amended): every `placeBid` call first creates (if absent)
the gate entry keyed by `itemId` — including for identifiers naming no
item — before the lookup; the lock map after the call is exactly the
get-or-create result, existing entries are never dropped by `placeBid`
(only `resetItems` clears them), and the `ITEM_NOT_FOUND` decision is
the lookup made on the state that already holds the gate entry. -/
theorem C9_gate_entries (itemId : String) (bidderId : Option String)
    (bidAmount : JsNum) (serverTime : ℕ) (freshId : String) (s : AuctionStore) :
    itemId ∈ (placeBid itemId bidderId bidAmount serverTime freshId s).2.itemLocks ∧
    (placeBid itemId bidderId bidAmount serverTime freshId s).2.itemLocks =
      (getLockForItem itemId s).itemLocks ∧
    (∀ k ∈ s.itemLocks,
      k ∈ (placeBid itemId bidderId bidAmount serverTime freshId s).2.itemLocks) ∧
    ((placeBid itemId bidderId bidAmount serverTime freshId s).1 = .itemNotFound ↔
      (getLockForItem itemId s).auctionItems.find? (fun i => i.id == itemId) = none) := by
  have hl := placeBid_itemLocks itemId bidderId bidAmount serverTime freshId s
  refine ⟨?_, hl, ?_, ?_⟩
  · rw [hl]
    exact mem_getLockForItem itemId s
  · intro k hk
    rw [hl]
    exact getLockForItem_mono itemId k s hk
  · simp only [placeBid]
    cases hfind : (getLockForItem itemId s).auctionItems.find? (fun i => i.id == itemId) with
    | none => simp
    | some item =>
      dsimp only
      by_cases hend : item.auctionEndTime ≤ serverTime
      · rw [if_pos hend]
        exact ⟨fun h => BidOutcome.noConfusion h, fun h => Option.noConfusion h⟩
      · rw [if_neg hend]
        by_cases hle : bidAmount.jsLe item.currentBid = true
        · rw [if_pos hle]
          exact ⟨fun h => BidOutcome.noConfusion h, fun h => Option.noConfusion h⟩
        · rw [if_neg hle]
          exact ⟨fun h => BidOutcome.noConfusion h, fun h => Option.noConfusion h⟩

/-- Witness for C9 (amended): a pre-existing gate entry for `a` survives
a later `placeBid` on the unknown id `ghost`. -/
theorem C9_witness :
    "a" ∈ (placeBid "ghost" (some "g") (JsNum.num 5) 1 "b1"
      (placeBid "a" (some "g") (JsNum.num 5) 0 "b0" (initStore 0)).2).2.itemLocks :=
  (C9_gate_entries "ghost" (some "g") (JsNum.num 5) 1 "b1"
    (placeBid "a" (some "g") (JsNum.num 5) 0 "b0" (initStore 0)).2).2.2.1 "a" (by decide)

/-- Claim C10: a `BID_PLACED` payload with a falsy `itemId`, `bidAmount`
or `bidderId` — including a `bidAmount` of exactly 0 — is answered
`INVALID_DATA` with no events and the store untouched (`placeBid` is
never reached, so not even a gate entry is created). -/
theorem C10_socket_validation (req : BidRequest) (serverTime : ℕ) (freshId : String)
    (fanoutTime : ℕ) (s : AuctionStore)
    (h : (jsFalsyStr req.itemId || jsFalsyNum req.bidAmount ||
      jsFalsyStr req.bidderId) = true) :
    handleBidPlaced req serverTime freshId fanoutTime s = (.invalidData, ([], []), s) := by
  simp only [handleBidPlaced]
  rw [if_pos h]

/-- Witness for C10: a bid of exactly 0 on `item-001` is INVALID_DATA and
leaves the seeded store (including its empty lock map) unchanged. -/
theorem C10_witness :
    handleBidPlaced { itemId := some "item-001", bidAmount := some (JsNum.num 0),
                      bidderId := some "bob" } 1 "b1" 2 (initStore 0) =
      (.invalidData, ([], []), initStore 0) :=
  C10_socket_validation _ 1 "b1" 2 _ (by decide)
